import Mathlib

/-!
Verification of the coroutine runtime of the Distributed-Key-Value-Store
repository (src/src/runtime).  Each definition is a shallow embedding of a
function of the C++ sources; theorems check the sentences of spec.md against
those embeddings.  Machine counters (std::atomic<size_t>) are modelled as
natural numbers reduced modulo 2^64 where the code can wrap.
-/

set_option maxRecDepth 100000

namespace Monsoon

/-- Word size of the size_t counters used by the runtime. -/
def U64 : Nat := 2 ^ 64

/-! ## Scheduler (src/src/runtime/scheduler.cpp, include/scheduler.h)

A `SchedulerTask` mirrors `Scheduler::SchedulerTask`: exactly one of a fiber
handle or a callback, plus the requested thread.  `fiberRunning` models the
value of `fiber_->getState() == Fiber::RUNNING` observed when the run loop
inspects the task. -/
structure SchedulerTask where
  hasFiber : Bool
  fiberRunning : Bool
  hasCb : Bool
  thread : Int
deriving DecidableEq, Repr

/-- Task built by `SchedulerTask(Fiber::ptr f, int t)`. -/
def mkFiberTask (running : Bool) (t : Int) : SchedulerTask :=
  { hasFiber := true, fiberRunning := running, hasCb := false, thread := t }

/-- Task built by `SchedulerTask(std::function f, int t)`. -/
def mkCbTask (t : Int) : SchedulerTask :=
  { hasFiber := false, fiberRunning := false, hasCb := true, thread := t }

/-- Mirrors `Scheduler::ThreadContext`: the lock-free private queue and the
lock-protected public queue of one worker. -/
structure ThreadContext where
  private_queue : List SchedulerTask
  public_queue : List SchedulerTask
deriving DecidableEq, Repr

/-- State of a `Scheduler` as far as the claims need it: the per-worker
contexts, the OS thread id of the worker owning each context (`threadIds_`),
the `stopping_` flag, the active-worker counter, and the two function-local
round-robin counters of the `schedule` overloads. -/
structure SchedState where
  threadContexts : List ThreadContext
  threadIds : List Int
  stoppingFlag : Bool
  activeThreadCnt : Nat
  robinFiber : Nat
  robinCb : Nat
deriving DecidableEq, Repr

/-- Append a task to the private queue of context `i`. -/
def pushPrivate (s : SchedState) (i : Nat) (t : SchedulerTask) : SchedState :=
  { s with threadContexts :=
      s.threadContexts.modify (fun c => { c with private_queue := c.private_queue ++ [t] }) i }

/-- Append a task to the public queue of context `i`. -/
def pushPublic (s : SchedState) (i : Nat) (t : SchedulerTask) : SchedState :=
  { s with threadContexts :=
      s.threadContexts.modify (fun c => { c with public_queue := c.public_queue ++ [t] }) i }

/-- Embedding of `Scheduler::schedule(Fiber::ptr fiber, int thread)`
(scheduler.cpp lines 212-253).  `callerIdx = some i` models
`t_thread_ctx == threadContexts_[i]` for this scheduler (the calling thread is
its worker number `i`); `none` models a foreign or null `t_thread_ctx`.
`randVal` models the value of `rand()`.  The result carries the new state, the
number of `tickle()` calls issued and whether the public-queue mutex was taken;
`none` models undefined behaviour (indexing `threadContexts_` with a negative
`thread`). -/
def scheduleFiber (s : SchedState) (running : Bool) (thread : Int)
    (callerIdx : Option Nat) (randVal : Nat) : Option (SchedState × Nat × Bool) :=
  let len := s.threadContexts.length
  if thread ≠ -1 then
    if thread < (len : Int) then
      if thread < 0 then none
      else
        let target := thread.toNat
        if callerIdx = some target then
          some (pushPrivate s target (mkFiberTask running thread), 0, false)
        else
          some (pushPublic s target (mkFiberTask running thread), 1, true)
    else
      let target := randVal % len
      if callerIdx = some target then
        some (pushPrivate s target (mkFiberTask running thread), 0, false)
      else
        some (pushPublic s target (mkFiberTask running thread), 1, true)
  else
    let target := s.robinFiber % len
    let s := { s with robinFiber := (s.robinFiber + 1) % U64 }
    if callerIdx = some target then
      some (pushPrivate s target (mkFiberTask running thread), 0, false)
    else
      some (pushPublic s target (mkFiberTask running thread), 1, true)

/-- Embedding of `Scheduler::schedule(std::function cb, int thread)`
(scheduler.cpp lines 258-286).  Same conventions as `scheduleFiber`; note that
this overload falls back to round-robin (not `rand()`) when `thread` is out of
range. -/
def scheduleCb (s : SchedState) (thread : Int) (callerIdx : Option Nat) :
    Option (SchedState × Nat × Bool) :=
  let len := s.threadContexts.length
  if thread ≠ -1 ∧ thread < (len : Int) then
    if thread < 0 then none
    else
      let target := thread.toNat
      if callerIdx = some target then
        some (pushPrivate s target (mkCbTask thread), 0, false)
      else
        some (pushPublic s target (mkCbTask thread), 1, true)
  else
    let target := s.robinCb % len
    let s := { s with robinCb := (s.robinCb + 1) % U64 }
    if callerIdx = some target then
      some (pushPrivate s target (mkCbTask thread), 0, false)
    else
      some (pushPublic s target (mkCbTask thread), 1, true)

/-- Embedding of `Scheduler::stopping()` (scheduler.cpp lines 494-502): walk
the contexts and refuse to stop while some public queue is non-empty, then
require the stopping flag and a zero active-worker count.  The private queues
are not inspected. -/
def stoppingImpl (s : SchedState) : Bool :=
  s.threadContexts.all (fun c => c.public_queue.isEmpty) &&
    (s.stoppingFlag && s.activeThreadCnt == 0)

/-- Embedding of pass 2 of `Scheduler::run` (scheduler.cpp lines 363-391): scan
the own public queue, skipping entries whose `thread_` names another OS thread
id (`it->thread_ != -1 && it->thread_ != GetThreadId()`) and fiber tasks whose
fiber is RUNNING; take the first eligible entry.  `myTid` is `GetThreadId()` of
the scanning worker.  Returns the taken task and the remaining queue. -/
def takeLocal (myTid : Int) : List SchedulerTask → Option (SchedulerTask × List SchedulerTask)
  | [] => none
  | t :: ts =>
    if t.thread ≠ -1 ∧ t.thread ≠ myTid then
      (takeLocal myTid ts).map (fun r => (r.1, t :: r.2))
    else if t.hasFiber ∧ t.fiberRunning then
      (takeLocal myTid ts).map (fun r => (r.1, t :: r.2))
    else
      some (t, ts)

/-- Embedding of the steal pass of `Scheduler::run` (scheduler.cpp lines
394-419) restricted to one victim queue: take the first task whose `thread_`
is `-1`; tasks pinned to a specific thread are never stolen. -/
def stealFrom : List SchedulerTask → Option (SchedulerTask × List SchedulerTask)
  | [] => none
  | t :: ts =>
    if t.thread ≠ -1 then
      (stealFrom ts).map (fun r => (r.1, t :: r.2))
    else
      some (t, ts)

/-! ## Fiber (src/src/runtime/fiber.cpp)

States of `Fiber::State`: READY, RUNNING, TERM (Terminated), EXCEPT (Faulted). -/
inductive FiberState
  | ready
  | running
  | term
  | faulted
deriving DecidableEq, Repr

/-- Embedding of `Fiber::yield` (fiber.cpp lines 280-307).  The entry assertion
is `assert(state_ == RUNNING || state_ == TERM)`; a failing assertion aborts the
process, modelled as `none`.  Otherwise the state becomes READY unless it is
TERM or EXCEPT, and control switches back to the caller context. -/
def yieldStep (st : FiberState) : Option FiberState :=
  if st = .running ∨ st = .term then
    some (if st ≠ .term ∧ st ≠ .faulted then .ready else st)
  else
    none

/-- Outcome of one execution of the trampoline `Fiber::MainFunc`:
the state stored after the try/catch block, whether the exception was logged,
and the state after the final `raw_ptr->yield()` (`none` = the process aborted
inside `yield`). -/
structure TrampolineResult where
  stateAfterCb : FiberState
  logged : Bool
  afterYield : Option FiberState
deriving DecidableEq, Repr

/-- Embedding of `Fiber::MainFunc` (fiber.cpp lines 136-159) for a fiber whose
callable either returns normally (`throws = false`) or throws (`throws = true`):
the callable runs inside a catch boundary, the state is set to TERM on normal
return or EXCEPT on exception (logging the exception), and then the trampoline
calls `yield`. -/
def mainFunc (throws : Bool) : TrampolineResult :=
  let st := if throws then FiberState.faulted else FiberState.term
  { stateAfterCb := st, logged := throws, afterYield := yieldStep st }

/-! ## Timer (src/src/runtime/timer.cpp) -/

/-- Embedding of `TimerManager::detectClockRollover` (timer.cpp lines 284-291).
`prev` is `previousTime_` and `now` the observed monotonic milliseconds, both
uint64 values.  The subtraction `previousTime_ - 60 * 60 * 1000` is performed
in uint64 arithmetic and therefore wraps when `prev < 3600000`.  Returns the
rollover verdict and the updated `previousTime_`. -/
def detectClockRollover (prev now : Nat) : Bool × Nat :=
  (decide (now < prev) && decide (now < (prev + (U64 - 3600000)) % U64), now)

/-- One timer of the ordered set `timers_`: absolute deadline `next_`, period
`ms_`, recurring flag, and an identity standing for the callback / the node
address used as tie-breaker. -/
structure TimerRec where
  next : Nat
  ms : Nat
  recurring : Bool
  id : Nat
deriving DecidableEq, Repr

/-- Ordered insertion following `Timer::Comparator` (timer.cpp lines 15-28):
earlier deadline first, ties broken by identity. -/
def insertTimer (t : TimerRec) : List TimerRec → List TimerRec
  | [] => [t]
  | u :: us =>
    if t.next < u.next ∨ (t.next = u.next ∧ t.id < u.id) then
      t :: u :: us
    else
      u :: insertTimer t us

/-- State of a `TimerManager`: the ordered timer set and `previousTime_`. -/
structure TimerMgr where
  timers : List TimerRec
  previousTime : Nat
deriving DecidableEq, Repr

/-- Embedding of `TimerManager::listExpiredCb` (timer.cpp lines 203-254) at
observed time `now`: if the set is empty nothing happens (the rollover detector
is not consulted); otherwise clock regression is checked, and unless something
is due the function returns; expired timers (all of them when the rollover
verdict is true) are removed, their callback identities collected in order, and
recurring ones re-inserted at `now + ms`. -/
def listExpiredCb (m : TimerMgr) (now : Nat) : List Nat × TimerMgr :=
  if m.timers.isEmpty then
    ([], m)
  else
    let rollover := (detectClockRollover m.previousTime now).1
    let m := { m with previousTime := (detectClockRollover m.previousTime now).2 }
    if ¬rollover ∧ (∀ t ∈ m.timers.take 1, now < t.next) then
      ([], m)
    else
      let expired := if rollover then m.timers else m.timers.takeWhile (fun t => t.next ≤ now)
      let rest := if rollover then [] else m.timers.dropWhile (fun t => t.next ≤ now)
      let rest := expired.foldl
        (fun acc t => if t.recurring then insertTimer { t with next := now + t.ms } acc else acc)
        rest
      (expired.map TimerRec.id, { m with timers := rest })

/-! ## IOManager (src/src/runtime/io_manager.cpp, include/iomanager.h) -/

/-- The two I/O event kinds `READ` and `WRITE`. -/
inductive Event
  | read
  | write
deriving DecidableEq, Repr, Fintype

/-- The event mask `FdContext::events`, one bit per event kind. -/
structure EvSet where
  rd : Bool
  wr : Bool
deriving DecidableEq, Repr, Fintype

/-- Bit test `events & event`. -/
def EvSet.mem (s : EvSet) : Event → Bool
  | .read => s.rd
  | .write => s.wr

/-- Bit set `events | event`. -/
def EvSet.add (s : EvSet) : Event → EvSet
  | .read => { s with rd := true }
  | .write => { s with wr := true }

/-- Bit clear `events & ~event`. -/
def EvSet.remove (s : EvSet) : Event → EvSet
  | .read => { s with rd := false }
  | .write => { s with wr := false }

/-- Truthiness test of the mask (`fd_ctx->events` as a condition). -/
def EvSet.isNone (s : EvSet) : Bool :=
  !s.rd && !s.wr

/-- Mirrors `EventContext`: whether the scheduler pointer, the waiter fiber and
the waiter callback slots are non-empty. -/
structure EventContext where
  scheduler : Bool
  fiber : Bool
  cb : Bool
deriving DecidableEq, Repr, Fintype

/-- The reset value written by `FdContext::resetEveContext`. -/
def EventContext.empty : EventContext :=
  { scheduler := false, fiber := false, cb := false }

/-- Mirrors `FdContext`: the armed-event mask and one `EventContext` per kind. -/
structure FdContext where
  events : EvSet
  read : EventContext
  write : EventContext
deriving DecidableEq, Repr, Fintype

/-- The lazily constructed fresh `FdContext`. -/
def FdContext.init : FdContext :=
  { events := { rd := false, wr := false }, read := .empty, write := .empty }

/-- Embedding of `FdContext::getEveContext`. -/
def FdContext.getEveContext (c : FdContext) : Event → EventContext
  | .read => c.read
  | .write => c.write

/-- Replace the `EventContext` of one event kind. -/
def FdContext.setEveContext (c : FdContext) : Event → EventContext → FdContext
  | .read, e => { c with read := e }
  | .write, e => { c with write := e }

/-- Which waiter slot `FdContext::triggerEvent` hands to the scheduler. -/
inductive Waiter
  | cbSlot
  | fiberSlot
deriving DecidableEq, Repr, Fintype

/-- Embedding of `FdContext::triggerEvent` (io_manager.cpp lines 47-63):
panics (`none`) unless the event is registered; clears the event bit, schedules
the callback if present and otherwise the fiber slot, and resets the
`EventContext`. -/
def triggerEvent (c : FdContext) (e : Event) : Option (FdContext × Waiter) :=
  if ¬(c.events.mem e) then
    none
  else
    let ctx := c.getEveContext e
    let w := if ctx.cb then Waiter.cbSlot else Waiter.fiberSlot
    some (({ c with events := c.events.remove e }).setEveContext e .empty, w)

/-- State of an `IOManager` as far as the claims need it: the `FdContext`
table and the pending-event counter. -/
structure IOManager where
  fdContexts : List FdContext
  pendingEventCnt : Nat
deriving DecidableEq, Repr

/-- Increment of the `std::atomic<size_t>` pending counter. -/
def pendInc (n : Nat) : Nat :=
  (n + 1) % U64

/-- Decrement of the `std::atomic<size_t>` pending counter (wraps at zero). -/
def pendDec (n : Nat) : Nat :=
  (n + (U64 - 1)) % U64

/-- Embedding of `IOManager::contextResize` (io_manager.cpp lines 197-206):
`std::vector::resize` to `size`, filling fresh slots with new `FdContext`
objects. -/
def contextResize (l : List FdContext) (size : Nat) : List FdContext :=
  l.take size ++ List.replicate (size - l.length) FdContext.init

/-- Embedding of `IOManager::addEvent` (io_manager.cpp lines 220-282).
`cbProvided` states whether a callback argument was passed (otherwise the
current fiber is recorded); `epollOk` models the result of `epoll_ctl`.
Returns the `int` result and the new state; `none` models a `CondPanic`
(event already armed, or dirty `EventContext`) or an out-of-bounds access
after a degenerate resize. -/
def addEvent (m : IOManager) (fd : Nat) (e : Event) (cbProvided : Bool)
    (epollOk : Bool) : Option (Int × IOManager) :=
  let m :=
    if fd < m.fdContexts.length then m
    else { m with fdContexts := contextResize m.fdContexts (3 * fd / 2) }
  match m.fdContexts[fd]? with
  | none => none
  | some fdCtx =>
    if fdCtx.events.mem e then
      none
    else if ¬epollOk then
      some (-1, m)
    else
      let m := { m with pendingEventCnt := pendInc m.pendingEventCnt }
      let fdCtx := { fdCtx with events := fdCtx.events.add e }
      let ectx := fdCtx.getEveContext e
      if ectx.scheduler ∨ ectx.fiber ∨ ectx.cb then
        none
      else
        let ectx :=
          if cbProvided then { ectx with scheduler := true, cb := true }
          else { ectx with scheduler := true, fiber := true }
        some (0, { m with fdContexts := m.fdContexts.set fd (fdCtx.setEveContext e ectx) })

/-- Embedding of `IOManager::delEvent` (io_manager.cpp lines 339-375): silent
removal; returns the `bool` result, the new state, and the (always empty) list
of waiters handed to the scheduler. -/
def delEvent (m : IOManager) (fd : Nat) (e : Event) (epollOk : Bool) :
    Bool × IOManager × List Waiter :=
  if m.fdContexts.length ≤ fd then
    (false, m, [])
  else
    match m.fdContexts[fd]? with
    | none => (false, m, [])
    | some fdCtx =>
      if ¬(fdCtx.events.mem e) then
        (false, m, [])
      else if ¬epollOk then
        (false, m, [])
      else
        let fdCtx := ({ fdCtx with events := fdCtx.events.remove e }).setEveContext e .empty
        (true, { fdContexts := m.fdContexts.set fd fdCtx,
                 pendingEventCnt := pendDec m.pendingEventCnt }, [])

/-- Embedding of `IOManager::cancelEvent` (io_manager.cpp lines 294-327):
forced removal that fires the waiter through `triggerEvent` and decrements the
pending count.  `none` models the `CondPanic` inside `triggerEvent` (it cannot
fire here since the event bit was just checked). -/
def cancelEvent (m : IOManager) (fd : Nat) (e : Event) (epollOk : Bool) :
    Option (Bool × IOManager × List Waiter) :=
  if m.fdContexts.length ≤ fd then
    some (false, m, [])
  else
    match m.fdContexts[fd]? with
    | none => some (false, m, [])
    | some fdCtx =>
      if ¬(fdCtx.events.mem e) then
        some (false, m, [])
      else if ¬epollOk then
        some (false, m, [])
      else
        match triggerEvent fdCtx e with
        | none => none
        | some (fdCtx, w) =>
          some (true, { fdContexts := m.fdContexts.set fd fdCtx,
                        pendingEventCnt := pendDec m.pendingEventCnt }, [w])

/-- The trigger-and-decrement block shared by `IOManager::cancelAll`
(io_manager.cpp lines 407-415) and the idle-loop dispatch (lines 565-573):
when `cond` holds, fire the waiter of `e` through `triggerEvent` and decrement
the pending count, accumulating the fired waiter. -/
def triggerStep (cond : Bool) (e : Event) (c : FdContext) (ws : List Waiter)
    (pend : Nat) : Option (FdContext × List Waiter × Nat) :=
  if cond then
    (triggerEvent c e).map (fun r => (r.1, ws ++ [r.2], pendDec pend))
  else
    some (c, ws, pend)

/-- Embedding of `IOManager::cancelAll` (io_manager.cpp lines 383-418): fires
the READ waiter then the WRITE waiter when armed, decrementing the pending
count for each; `none` models a `CondPanic`. -/
def cancelAll (m : IOManager) (fd : Nat) (epollOk : Bool) :
    Option (Bool × IOManager × List Waiter) :=
  if m.fdContexts.length ≤ fd then
    some (false, m, [])
  else
    match m.fdContexts[fd]? with
    | none => some (false, m, [])
    | some fdCtx =>
      if fdCtx.events.isNone then
        some (false, m, [])
      else if ¬epollOk then
        some (false, m, [])
      else
        match triggerStep (fdCtx.events.mem .read) .read fdCtx [] m.pendingEventCnt with
        | none => none
        | some (fdCtx, ws, pend) =>
          match triggerStep (fdCtx.events.mem .write) .write fdCtx ws pend with
          | none => none
          | some (fdCtx, ws, pend) =>
            if ¬fdCtx.events.isNone then
              none
            else
              some (true, { fdContexts := m.fdContexts.set fd fdCtx,
                            pendingEventCnt := pend }, ws)

/-- One `epoll_event` returned by `epoll_wait` for a real fd, as the idle loop
reads it. -/
structure KernelEvent where
  epollIn : Bool
  epollOut : Bool
  epollErr : Bool
  epollHup : Bool
deriving DecidableEq, Repr

/-- Embedding of the per-event dispatch of `IOManager::idle` (io_manager.cpp
lines 530-573) for the `FdContext` at index `fd`: EPOLLERR/EPOLLHUP are
translated into the armed READ/WRITE bits, events the user did not ask for are
skipped, the residual mask is re-registered (`epollOk` models that
`epoll_ctl`), and each fired event runs `triggerEvent` and decrements the
pending count.  `none` models a `CondPanic` inside `triggerEvent`. -/
def dispatchEvent (m : IOManager) (fd : Nat) (kev : KernelEvent) (epollOk : Bool) :
    Option (IOManager × List Waiter) :=
  match m.fdContexts[fd]? with
  | none => none
  | some fdCtx =>
    let errHup := kev.epollErr || kev.epollHup
    let kin := kev.epollIn || (errHup && fdCtx.events.rd)
    let kout := kev.epollOut || (errHup && fdCtx.events.wr)
    if (fdCtx.events.rd && kin) = false ∧ (fdCtx.events.wr && kout) = false then
      some (m, [])
    else if ¬epollOk then
      some (m, [])
    else
      match triggerStep kin .read fdCtx [] m.pendingEventCnt with
      | none => none
      | some (fdCtx, ws, pend) =>
        match triggerStep kout .write fdCtx ws pend with
        | none => none
        | some (fdCtx, ws, pend) =>
          some ({ fdContexts := m.fdContexts.set fd fdCtx,
                  pendingEventCnt := pend }, ws)

/-! ## Fd registry and hook layer (src/src/runtime/hook.cpp)

The implementation of `FdCtx` / `FdMgr` (fd_manager) is not among the sources;
its record is modelled from the specification. -/

/-- Modelled from the spec: the per-fd record `FdInfo` kept by the process-wide
FdManager, whose implementation (fd_manager) is missing from the sources.
Per section 3 of the specification it holds: is-socket; system-level
non-blocking (set by the runtime); user-level non-blocking (set via user
fcntl/ioctl); receive timeout; send timeout.  Timeouts are uint64 milliseconds
with `U64 - 1` (the value -1) meaning unset/infinite; `isClosed` models
`FdCtx::isClose()`. -/
structure FdInfo where
  isSocket : Bool
  isClosed : Bool
  sysNonblock : Bool
  userNonblock : Bool
  recvTimeout : Nat
  sendTimeout : Nat
deriving DecidableEq, Repr

/-- Modelled from the spec: `FdCtx::getTimeout(timeout_so)` selects the
receive timeout for `SO_RCVTIMEO` and the send timeout for `SO_SNDTIMEO`.
`isRecv` is true for `SO_RCVTIMEO`. -/
def FdInfo.getTimeout (c : FdInfo) (isRecv : Bool) : Nat :=
  if isRecv then c.recvTimeout else c.sendTimeout

/-- The flag word handed to `fcntl`: the `O_NONBLOCK` bit plus the remaining
bits, which the hook passes through untouched. -/
structure Flags where
  nonblock : Bool
  rest : Nat
deriving DecidableEq, Repr

/-- Combined view of one runtime-managed socket: the kernel-level O_NONBLOCK
flag of the open file description, and its registry record. -/
structure SockState where
  kernelNonblock : Bool
  info : FdInfo
deriving DecidableEq, Repr

/-- Embedding of the `F_SETFL` branch of the hooked `fcntl` (hook.cpp lines
497-511): for an unmanaged fd the argument goes through unchanged; for a
managed socket `setUserNonblock(arg & O_NONBLOCK)` records the intent and the
`O_NONBLOCK` bit of the forwarded argument is forced to `getSysNonblock()`.
The real `fcntl(F_SETFL)` then makes the forwarded bit the kernel flag. -/
def fcntlSetfl (s : SockState) (arg : Flags) : SockState :=
  if s.info.isClosed ∨ ¬s.info.isSocket then
    { s with kernelNonblock := arg.nonblock }
  else
    { kernelNonblock := s.info.sysNonblock,
      info := { s.info with userNonblock := arg.nonblock } }

/-- Embedding of the `F_GETFL` branch of the hooked `fcntl` (hook.cpp lines
512-524): the real `fcntl(F_GETFL)` reports the kernel flags; for a managed
socket the `O_NONBLOCK` bit of the reported word is replaced by
`getUserNonblock()`. -/
def fcntlGetfl (s : SockState) (kernelRest : Nat) : Flags :=
  let arg : Flags := { nonblock := s.kernelNonblock, rest := kernelRest }
  if s.info.isClosed ∨ ¬s.info.isSocket then
    arg
  else
    { arg with nonblock := s.info.userNonblock }

/-- Embedding of the `FIONBIO` branch of the hooked `ioctl` (hook.cpp lines
576-591): for a managed socket `setUserNonblock(*(int*)arg)` records the
intent, and then the user-supplied argument is forwarded unchanged to the real
`ioctl`, which makes it the kernel flag. -/
def ioctlFionbio (s : SockState) (userNb : Bool) : SockState :=
  if s.info.isClosed ∨ ¬s.info.isSocket then
    { s with kernelNonblock := userNb }
  else
    { kernelNonblock := userNb,
      info := { s.info with userNonblock := userNb } }

/-- Result of one call of the intercepted syscall `fun(fd, args...)`:
either a return value, or -1 with the given errno. -/
inductive IORes
  | ok (n : Int)
  | err (e : Nat)
deriving DecidableEq, Repr

/-- Errno values used by `do_io`. -/
def EINTR : Nat := 4

/-- Errno value EAGAIN. -/
def EAGAIN : Nat := 11

/-- Errno value ETIMEDOUT. -/
def ETIMEDOUT : Nat := 110

/-- Errno value EBADF. -/
def EBADF : Nat := 9

/-- Final outcome of `do_io`: the returned value, or -1 with an errno. -/
inductive IOOutcome
  | val (n : Int)
  | fail (e : Nat)
deriving DecidableEq, Repr

/-- Observable actions of the `do_io` state machine, in program order. -/
inductive HookAct
  | syscall
  | installTimer (ms : Nat)
  | armEvent
  | armEventFailed
  | yieldFiber
  | timerCancelsEvent
  | cancelTimer
deriving DecidableEq, Repr

/-- Embedding of the condition-timer callback installed by `do_io` (hook.cpp
lines 142-151): given whether the weak condition is still alive and the current
`timer_info::cancelled` value, it returns the new `cancelled` value and whether
it called `cancelEvent(fd, event)` with errno ETIMEDOUT. -/
def ioTimerCallback (alive : Bool) (cancelled : Nat) : Nat × Bool :=
  if ¬alive ∨ cancelled ≠ 0 then
    (cancelled, false)
  else
    (ETIMEDOUT, true)

/-- Embedding of the retry loop of `do_io` (hook.cpp lines 127-175) for a
runtime-managed socket with per-direction timeout `to` (where `U64 - 1` means
no timeout).  `attempts` lists the results of the successive calls of the real
syscall; whenever the loop suspends, the next element of `waits` supplies
whether `addEvent` succeeded and whether the condition timer fired before the
event (setting `timer_info::cancelled = ETIMEDOUT` and cancelling the event).
Returns the outcome and the trace of actions; `none` means the supplied
`attempts`/`waits` were too short to finish the call. -/
def doIoLoop (tmo : Nat) : List IORes → List (Bool × Bool) → Option (IOOutcome × List HookAct)
  | [], _ => none
  | .ok n :: _, _ => some (.val n, [.syscall])
  | .err e :: rest, waits =>
    if e = EINTR then
      (doIoLoop tmo rest waits).map (fun r => (r.1, HookAct.syscall :: r.2))
    else if e = EAGAIN then
      match waits with
      | [] => none
      | (armOk, timerFired) :: waits =>
        let hasTimer := tmo ≠ U64 - 1
        let timerActs := if hasTimer then [HookAct.installTimer tmo] else []
        let cancelActs := if hasTimer then [HookAct.cancelTimer] else []
        if armOk then
          if hasTimer ∧ timerFired then
            some (.fail ETIMEDOUT,
              [HookAct.syscall] ++ timerActs ++
                [HookAct.armEvent, HookAct.yieldFiber, HookAct.timerCancelsEvent] ++ cancelActs)
          else
            (doIoLoop tmo rest waits).map (fun r =>
              (r.1, ([HookAct.syscall] ++ timerActs ++
                [HookAct.armEvent, HookAct.yieldFiber] ++ cancelActs) ++ r.2))
        else
          some (.fail EAGAIN,
            [HookAct.syscall] ++ timerActs ++ [HookAct.armEventFailed] ++ cancelActs)
    else
      some (.fail e, [.syscall])

/-- Embedding of the entry checks of `do_io` (hook.cpp lines 98-126): with
hooking disabled, an unregistered fd, a non-socket, or a user-requested
non-blocking fd, the real syscall is called once and returned; a closed fd
fails with EBADF; otherwise the per-direction timeout is read and the retry
loop runs. -/
def doIoCall (hookEnabled : Bool) (ctx : Option FdInfo) (isRecv : Bool)
    (attempts : List IORes) (waits : List (Bool × Bool)) :
    Option (IOOutcome × List HookAct) :=
  let plain : Option (IOOutcome × List HookAct) :=
    match attempts with
    | [] => none
    | .ok n :: _ => some (.val n, [.syscall])
    | .err e :: _ => some (.fail e, [.syscall])
  if ¬hookEnabled then
    plain
  else
    match ctx with
    | none => plain
    | some c =>
      if c.isClosed then
        some (.fail EBADF, [])
      else if ¬c.isSocket ∨ c.userNonblock then
        plain
      else
        doIoLoop (c.getTimeout isRecv) attempts waits

/-! ## Claims about the scheduler (C1, C2, C3) -/

/-- Scheduler with two workers: context indices 0 and 1, owned by the OS
threads with ids 1001 and 1002 (`threadIds_`). -/
def c1State : SchedState :=
  { threadContexts := [{ private_queue := [], public_queue := [] },
                       { private_queue := [], public_queue := [] }],
    threadIds := [1001, 1002],
    stoppingFlag := false, activeThreadCnt := 0, robinFiber := 0, robinCb := 0 }

/-- C1: a callback scheduled with affinity key 1 from a non-worker thread does
land in the public queue of worker index 1, and the steal pass indeed never
takes it; but the task records `thread_ = 1` while the run loop of worker 1
skips every public entry with `thread_ != -1 && thread_ != GetThreadId()`, and
`GetThreadId()` of worker 1 is its OS thread id 1002, not its index — so
neither worker 0 nor worker 1 can ever select the task and it is never
executed, contradicting the claim that every execution of it occurs on
worker 1 (spec scenario 5 runs 10000 such callbacks to completion). -/
theorem c1_pinned_task_never_selected :
    scheduleCb c1State 1 none =
      some ({ c1State with threadContexts :=
                [{ private_queue := [], public_queue := [] },
                 { private_queue := [], public_queue := [mkCbTask 1] }] }, 1, true) ∧
    takeLocal 1002 [mkCbTask 1] = none ∧
    takeLocal 1001 [] = none ∧
    stealFrom [mkCbTask 1] = none := by
  decide

/-- Scheduler state with the stopping flag set, no active worker, every public
queue empty, but a task still sitting in the private queue of worker 0. -/
def c2State : SchedState :=
  { threadContexts := [{ private_queue := [mkCbTask (-1)], public_queue := [] }],
    threadIds := [1001],
    stoppingFlag := true, activeThreadCnt := 0, robinFiber := 0, robinCb := 0 }

/-- C2 counterexample: `Scheduler::stopping()` inspects only the public
queues, so it reports stoppable on `c2State` although worker 0 still holds a
task in its private queue — refuting the claimed equivalence. -/
theorem c2_stopping_ignores_private_queue :
    stoppingImpl c2State = true ∧
      ¬(∀ c ∈ c2State.threadContexts, c.private_queue = []) := by
  decide

/-- C2 (amended): the stopping predicate holds exactly when the stopping flag
is set, every public queue is empty and the active-worker counter is zero; the
private queues are not part of the predicate. -/
theorem c2_stopping_pred_characterisation (s : SchedState) :
    stoppingImpl s = true ↔
      (s.stoppingFlag = true ∧ (∀ c ∈ s.threadContexts, c.public_queue = []) ∧
        s.activeThreadCnt = 0) := by
  simp only [stoppingImpl, Bool.and_eq_true, List.all_eq_true, List.isEmpty_iff,
    beq_iff_eq]
  tauto

/-- C3: for `schedule(task, -1)` both overloads first pick the round-robin
target `r`; when the calling thread is a worker of this scheduler and the post
is self-scheduling (its context is the chosen one, `callerIdx = some r`), the
task is appended to the private queue of the current worker with no lock and
no wake; otherwise it is appended to the public queue of the round-robin
worker, the queue mutex is taken, and exactly one `tickle()` is issued. -/
theorem c3_schedule_any_affinity (s : SchedState) (running : Bool)
    (callerIdx : Option Nat) (randVal : Nat) (h : 0 < s.threadContexts.length) :
    (scheduleFiber s running (-1) callerIdx randVal =
      (if callerIdx = some (s.robinFiber % s.threadContexts.length) then
        some (pushPrivate { s with robinFiber := (s.robinFiber + 1) % U64 }
          (s.robinFiber % s.threadContexts.length) (mkFiberTask running (-1)), 0, false)
      else
        some (pushPublic { s with robinFiber := (s.robinFiber + 1) % U64 }
          (s.robinFiber % s.threadContexts.length) (mkFiberTask running (-1)), 1, true))) ∧
    (scheduleCb s (-1) callerIdx =
      (if callerIdx = some (s.robinCb % s.threadContexts.length) then
        some (pushPrivate { s with robinCb := (s.robinCb + 1) % U64 }
          (s.robinCb % s.threadContexts.length) (mkCbTask (-1)), 0, false)
      else
        some (pushPublic { s with robinCb := (s.robinCb + 1) % U64 }
          (s.robinCb % s.threadContexts.length) (mkCbTask (-1)), 1, true))) := by
  constructor
  · simp [scheduleFiber]
  · simp [scheduleCb]

/-- Concrete two-worker scheduler used to witness C3. -/
def c3State : SchedState :=
  { threadContexts := [{ private_queue := [], public_queue := [] },
                       { private_queue := [], public_queue := [] }],
    threadIds := [1001, 1002],
    stoppingFlag := false, activeThreadCnt := 0, robinFiber := 0, robinCb := 1 }

/-- Witness for C3 at a concrete input: on `c3State` the fiber overload is a
self-scheduling post by worker 0 (round robin picks 0) and goes to the private
queue with no wake, while the callback overload targets worker 1 and goes to
its public queue with one wake. -/
theorem c3_schedule_any_affinity_witness :
    scheduleFiber c3State false (-1) (some 0) 5 =
      some (pushPrivate { c3State with robinFiber := 1 } 0 (mkFiberTask false (-1)),
        0, false) ∧
    scheduleCb c3State (-1) (some 0) =
      some (pushPublic { c3State with robinCb := 2 } 1 (mkCbTask (-1)), 1, true) := by
  have h := c3_schedule_any_affinity c3State false (some 0) 5 (by decide)
  exact ⟨h.1.trans (by decide), h.2.trans (by decide)⟩

/-! ## Claim about the fiber trampoline (C4) -/

/-- C4: when the user callable throws, `Fiber::MainFunc` does catch the
exception, set the state to EXCEPT (Faulted) and log it — but the subsequent
`raw_ptr->yield()` begins with `assert(state_ == RUNNING || state_ == TERM)`,
which is false in the EXCEPT state, so the process aborts instead of yielding
back to the dispatcher (`afterYield = none`); on normal return the trampoline
yields back as described.  The body of `yield` itself (the
`state_ != TERM && state_ != EXCEPT` test) and the run loop both expect
Faulted fibers to pass through, so the assertion contradicts the rest of the
code. -/
theorem c4_faulted_fiber_aborts_in_yield :
    mainFunc true =
      { stateAfterCb := .faulted, logged := true, afterYield := none } ∧
    mainFunc false =
      { stateAfterCb := .term, logged := false, afterYield := some .term } := by
  decide

/-! ## Claim about clock-rollover detection (C9) -/

/-- Timer manager holding one far-future timer, with `previousTime_` below one
hour. -/
def c9Mgr : TimerMgr :=
  { timers := [{ next := 1000000000, ms := 5, recurring := false, id := 7 }],
    previousTime := 1000 }

/-- C9: with `previousTime_ = 1000` ms, the uint64 subtraction
`previousTime_ - 3600000` wraps, so a regression of only 500 ms (observed now
= 500) is reported as a rollover and `listExpiredCb` expires a timer due in
the far future — although the claim (and the comment above
`detectClockRollover`) says only a regression of more than one hour does
that.  For `previousTime_` at least one hour the code matches the claim, as
the two boundary evaluations at `previousTime_ = 7200000` show. -/
theorem c9_small_regression_expires_everything :
    (detectClockRollover 1000 500).1 = true ∧
    listExpiredCb c9Mgr 500 = ([7], { timers := [], previousTime := 500 }) ∧
    (detectClockRollover 7200000 3600001).1 = false ∧
    (detectClockRollover 7200000 3599999).1 = true := by
  decide

/-! ## Claims about the reactor bookkeeping (C6, C7, C10) -/

/-- Number of non-empty waiter slots of one `EventContext` (a waiter fiber or
a waiter callback). -/
def waiterCount (e : EventContext) : Nat :=
  (if e.fiber then 1 else 0) + (if e.cb then 1 else 0)

/-- The per-`FdContext` invariant of the specification: an event bit is set in
the mask exactly when the corresponding `EventContext` has exactly one
non-empty waiter slot. -/
def fdCtxInv (c : FdContext) : Bool :=
  (c.events.rd == decide (waiterCount c.read = 1)) &&
    (c.events.wr == decide (waiterCount c.write = 1))

/-- The invariant over the whole `FdContext` table. -/
def ioInv (m : IOManager) : Bool :=
  m.fdContexts.all fdCtxInv

/-- The operations of claim C6, with their syscall-success parameters. -/
inductive IOOp
  | add (fd : Nat) (e : Event) (cbProvided : Bool) (epollOk : Bool)
  | del (fd : Nat) (e : Event) (epollOk : Bool)
  | cancel (fd : Nat) (e : Event) (epollOk : Bool)
  | cancelAllEv (fd : Nat) (epollOk : Bool)
  | dispatch (fd : Nat) (kev : KernelEvent) (epollOk : Bool)

/-- One step of the reactor bookkeeping: runs the named operation and keeps
the resulting state together with the waiters handed to the scheduler. -/
def ioStep (m : IOManager) : IOOp → Option (IOManager × List Waiter)
  | .add fd e cbP ok => (addEvent m fd e cbP ok).map (fun r => (r.2, []))
  | .del fd e ok => some ((delEvent m fd e ok).2.1, (delEvent m fd e ok).2.2)
  | .cancel fd e ok => (cancelEvent m fd e ok).map (fun r => (r.2.1, r.2.2))
  | .cancelAllEv fd ok => (cancelAll m fd ok).map (fun r => (r.2.1, r.2.2))
  | .dispatch fd kev ok => dispatchEvent m fd kev ok

/-- A freshly constructed `FdContext` satisfies the invariant. -/
theorem fdCtxInv_init : fdCtxInv FdContext.init = true := by
  decide

/-- Firing a waiter through `triggerEvent` preserves the invariant of the
touched context. -/
theorem fdCtxInv_trigger : ∀ (c : FdContext) (e : Event),
    fdCtxInv c = true →
    ((triggerEvent c e).map (fun r => fdCtxInv r.1)).getD true = true := by
  decide

/-- The context update performed by a successful `addEvent` (arming `e` and
filling exactly one waiter slot) preserves the invariant, given that `e` was
not armed. -/
theorem fdCtxInv_add : ∀ (c : FdContext) (e : Event) (cbP : Bool),
    fdCtxInv c = true → c.events.mem e = false →
    ¬((({ c with events := c.events.add e } : FdContext).getEveContext e).scheduler ∨
      (({ c with events := c.events.add e } : FdContext).getEveContext e).fiber ∨
      (({ c with events := c.events.add e } : FdContext).getEveContext e).cb) →
    fdCtxInv
      ((({ c with events := c.events.add e } : FdContext)).setEveContext e
        (if cbP then
          { ({ c with events := c.events.add e } : FdContext).getEveContext e with
              scheduler := true, cb := true }
        else
          { ({ c with events := c.events.add e } : FdContext).getEveContext e with
              scheduler := true, fiber := true })) = true := by
  decide

/-- The context update performed by `delEvent` (clearing the bit and resetting
the slot) preserves the invariant. -/
theorem fdCtxInv_del : ∀ (c : FdContext) (e : Event),
    fdCtxInv c = true →
    fdCtxInv ((({ c with events := c.events.remove e } : FdContext)).setEveContext e
      .empty) = true := by
  decide

/-- Setting a slot of a table whose members all satisfy a predicate to another
satisfying member keeps the property. -/
theorem all_set_of_all {α : Type} (p : α → Bool) :
    ∀ (l : List α) (i : Nat) (a : α),
      l.all p = true → p a = true → (l.set i a).all p = true
  | [], _, _, _, _ => by simp
  | x :: xs, 0, a, h, ha => by
    simp only [List.set, List.all_cons, Bool.and_eq_true] at h ⊢
    exact ⟨ha, h.2⟩
  | x :: xs, i + 1, a, h, ha => by
    simp only [List.set, List.all_cons, Bool.and_eq_true] at h ⊢
    exact ⟨h.1, all_set_of_all p xs i a h.2 ha⟩

/-- A member read through the safe indexing operator satisfies any predicate
all members satisfy. -/
theorem all_getElem {α : Type} (p : α → Bool) (l : List α) (i : Nat) (a : α)
    (h : l.all p = true) (hg : l[i]? = some a) : p a = true := by
  rw [List.all_eq_true] at h
  exact h a (List.getElem?_mem hg)

/-- The table grown by `contextResize` still satisfies the invariant
everywhere. -/
theorem ioInv_contextResize (l : List FdContext) (n : Nat)
    (h : l.all fdCtxInv = true) : (contextResize l n).all fdCtxInv = true := by
  unfold contextResize
  rw [List.all_append, Bool.and_eq_true]
  constructor
  · rw [List.all_eq_true] at h ⊢
    intro x hx
    exact h x (List.take_subset n l hx)
  · rw [List.all_eq_true]
    intro x hx
    rw [List.eq_of_mem_replicate hx]
    exact fdCtxInv_init

/-- Helper: a successful `triggerEvent` from an invariant context yields an
invariant context. -/
theorem fdCtxInv_of_trigger {c c2 : FdContext} {e : Event} {w : Waiter}
    (hc : fdCtxInv c = true) (h : triggerEvent c e = some (c2, w)) :
    fdCtxInv c2 = true := by
  have hk := fdCtxInv_trigger c e hc
  rw [h] at hk
  simpa using hk

/-- Helper: `triggerStep` preserves the per-context invariant. -/
theorem fdCtxInv_triggerStep {cond : Bool} {e : Event} {c c1 : FdContext}
    {ws ws1 : List Waiter} {p p1 : Nat} (hc : fdCtxInv c = true)
    (h : triggerStep cond e c ws p = some (c1, ws1, p1)) : fdCtxInv c1 = true := by
  unfold triggerStep at h
  split at h
  · rcases htr : triggerEvent c e with _ | ⟨c2, w⟩ <;> rw [htr] at h
    · simp at h
    · simp only [Option.map_some', Option.some.injEq, Prod.mk.injEq] at h
      obtain ⟨hc1, -⟩ := h
      rw [← hc1]
      exact fdCtxInv_of_trigger hc htr
  · simp only [Option.some.injEq, Prod.mk.injEq] at h
    obtain ⟨hc1, -⟩ := h
    rw [← hc1]
    exact hc

/-- C6: every reactor bookkeeping operation — `addEvent`, `delEvent`,
`cancelEvent`, `cancelAll`, and the idle-loop event dispatch through
`triggerEvent` — preserves the invariant that an event bit is set in a
`FdContext` mask exactly when the corresponding `EventContext` holds exactly
one non-empty waiter slot. -/
theorem c6_mask_waiter_invariant (m : IOManager) (op : IOOp) (m2 : IOManager)
    (ws : List Waiter) (hm : ioInv m = true) (h : ioStep m op = some (m2, ws)) :
    ioInv m2 = true := by
  unfold ioInv at hm ⊢
  cases op with
  | add fd e cbP ok =>
    simp only [ioStep, Option.map_eq_some'] at h
    obtain ⟨⟨r1, mr⟩, ha, heq⟩ := h
    cases heq
    simp only [addEvent] at ha
    by_cases hlen : fd < m.fdContexts.length
    · -- no resize
      rw [if_pos hlen] at ha
      split at ha
      · simp at ha
      · rename_i fdCtx hg
        have hc := all_getElem _ _ _ _ hm hg
        split at ha
        · simp at ha
        · rename_i hmem
          split at ha
          · simp only [Option.some.injEq, Prod.mk.injEq] at ha
            obtain ⟨-, hmr⟩ := ha
            rw [← hmr]
            exact hm
          · split at ha
            · simp at ha
            · rename_i hdirty
              simp only [Option.some.injEq, Prod.mk.injEq] at ha
              obtain ⟨-, hmr⟩ := ha
              rw [← hmr]
              exact all_set_of_all _ _ _ _ hm
                (fdCtxInv_add fdCtx e cbP hc (by simpa using hmem) hdirty)
    · -- resize path
      rw [if_neg hlen] at ha
      have hinv1 : (contextResize m.fdContexts (3 * fd / 2)).all fdCtxInv = true :=
        ioInv_contextResize _ _ hm
      split at ha
      · simp at ha
      · rename_i fdCtx hg
        have hc := all_getElem _ _ _ _ hinv1 hg
        split at ha
        · simp at ha
        · rename_i hmem
          split at ha
          · simp only [Option.some.injEq, Prod.mk.injEq] at ha
            obtain ⟨-, hmr⟩ := ha
            rw [← hmr]
            exact hinv1
          · split at ha
            · simp at ha
            · rename_i hdirty
              simp only [Option.some.injEq, Prod.mk.injEq] at ha
              obtain ⟨-, hmr⟩ := ha
              rw [← hmr]
              exact all_set_of_all _ _ _ _ hinv1
                (fdCtxInv_add fdCtx e cbP hc (by simpa using hmem) hdirty)
  | del fd e ok =>
    simp only [ioStep, Option.some.injEq, Prod.mk.injEq] at h
    obtain ⟨hmr, -⟩ := h
    rw [← hmr]
    unfold delEvent
    split
    · exact hm
    · split
      · exact hm
      · rename_i fdCtx hg
        have hc := all_getElem _ _ _ _ hm hg
        split
        · exact hm
        · split
          · exact hm
          · exact all_set_of_all _ _ _ _ hm (fdCtxInv_del fdCtx e hc)
  | cancel fd e ok =>
    simp only [ioStep, Option.map_eq_some'] at h
    obtain ⟨⟨r1, mr, wl⟩, ha, heq⟩ := h
    cases heq
    simp only [cancelEvent] at ha
    split at ha
    · simp only [Option.some.injEq, Prod.mk.injEq] at ha
      obtain ⟨-, hmr, -⟩ := ha
      rw [← hmr]
      exact hm
    · split at ha
      · simp only [Option.some.injEq, Prod.mk.injEq] at ha
        obtain ⟨-, hmr, -⟩ := ha
        rw [← hmr]
        exact hm
      · rename_i fdCtx hg
        have hc := all_getElem _ _ _ _ hm hg
        split at ha
        · simp only [Option.some.injEq, Prod.mk.injEq] at ha
          obtain ⟨-, hmr, -⟩ := ha
          rw [← hmr]
          exact hm
        · split at ha
          · simp only [Option.some.injEq, Prod.mk.injEq] at ha
            obtain ⟨-, hmr, -⟩ := ha
            rw [← hmr]
            exact hm
          · split at ha
            · simp at ha
            · rename_i c2 w htr
              have hc2 := fdCtxInv_of_trigger hc htr
              simp only [Option.some.injEq, Prod.mk.injEq] at ha
              obtain ⟨-, hmr, -⟩ := ha
              rw [← hmr]
              exact all_set_of_all _ _ _ _ hm hc2
  | cancelAllEv fd ok =>
    simp only [ioStep, Option.map_eq_some'] at h
    obtain ⟨⟨r1, mr, wl⟩, ha, heq⟩ := h
    cases heq
    simp only [cancelAll] at ha
    split at ha
    · simp only [Option.some.injEq, Prod.mk.injEq] at ha
      obtain ⟨-, hmr, -⟩ := ha
      rw [← hmr]
      exact hm
    · split at ha
      · simp only [Option.some.injEq, Prod.mk.injEq] at ha
        obtain ⟨-, hmr, -⟩ := ha
        rw [← hmr]
        exact hm
      · rename_i fdCtx hg
        have hc := all_getElem _ _ _ _ hm hg
        split at ha
        · simp only [Option.some.injEq, Prod.mk.injEq] at ha
          obtain ⟨-, hmr, -⟩ := ha
          rw [← hmr]
          exact hm
        · split at ha
          · simp only [Option.some.injEq, Prod.mk.injEq] at ha
            obtain ⟨-, hmr, -⟩ := ha
            rw [← hmr]
            exact hm
          · split at ha
            · simp at ha
            · rename_i c1 ws1 p1 h1
              have hc1 := fdCtxInv_triggerStep hc h1
              split at ha
              · simp at ha
              · rename_i c2 ws2 p2 h2
                have hc2 := fdCtxInv_triggerStep hc1 h2
                split at ha
                · simp at ha
                · simp only [Option.some.injEq, Prod.mk.injEq] at ha
                  obtain ⟨-, hmr, -⟩ := ha
                  rw [← hmr]
                  exact all_set_of_all _ _ _ _ hm hc2
  | dispatch fd kev ok =>
    simp only [ioStep, dispatchEvent] at h
    split at h
    · simp at h
    · rename_i fdCtx hg
      have hc := all_getElem _ _ _ _ hm hg
      split at h
      · simp only [Option.some.injEq, Prod.mk.injEq] at h
        obtain ⟨hmr, -⟩ := h
        rw [← hmr]
        exact hm
      · split at h
        · simp only [Option.some.injEq, Prod.mk.injEq] at h
          obtain ⟨hmr, -⟩ := h
          rw [← hmr]
          exact hm
        · split at h
          · simp at h
          · rename_i c1 ws1 p1 h1
            have hc1 := fdCtxInv_triggerStep hc h1
            split at h
            · simp at h
            · rename_i c2 ws2 p2 h2
              have hc2 := fdCtxInv_triggerStep hc1 h2
              simp only [Option.some.injEq, Prod.mk.injEq] at h
              obtain ⟨hmr, -⟩ := h
              rw [← hmr]
              exact all_set_of_all _ _ _ _ hm hc2

/-- Reactor state with one fresh context on fd 0 and no pending event. -/
def ioMgr0 : IOManager :=
  { fdContexts := [FdContext.init], pendingEventCnt := 0 }

/-- Reactor state after arming READ with a callback on fd 0 of `ioMgr0`. -/
def ioMgr0AfterAdd : IOManager :=
  { fdContexts := [{ events := { rd := true, wr := false },
                     read := { scheduler := true, fiber := false, cb := true },
                     write := EventContext.empty }],
    pendingEventCnt := 1 }

/-- Witness for C6: the invariant holds after a concrete `addEvent` step from
the all-empty state, by the preservation theorem. -/
theorem c6_mask_waiter_invariant_witness : ioInv ioMgr0AfterAdd = true :=
  c6_mask_waiter_invariant ioMgr0 (.add 0 .read true true) ioMgr0AfterAdd []
    (by decide) (by decide)

/-- The event mask of the context at index `fd` of the table. -/
def maskAt (m : IOManager) (fd : Nat) : Option EvSet :=
  (m.fdContexts[fd]?).map FdContext.events

/-- The composite of claim C7: a successful `addEvent(fd, e)` immediately
followed by `cancelEvent(fd, e)`, collecting the final state and every waiter
fired in between. -/
def addThenCancel (m : IOManager) (fd : Nat) (e : Event) (cbP : Bool) :
    Option (IOManager × List Waiter) :=
  match addEvent m fd e cbP true with
  | some (0, m1) => (cancelEvent m1 fd e true).map (fun r => (r.2.1, r.2.2))
  | _ => none

/-- Adding a bit makes membership true. -/
theorem mem_add_self : ∀ (s : EvSet) (e : Event), (s.add e).mem e = true := by
  decide

/-- Removing a bit that was just added restores the original mask. -/
theorem remove_add : ∀ (s : EvSet) (e : Event),
    s.mem e = false → (s.add e).remove e = s := by
  decide

/-- Replacing an `EventContext` leaves the event mask untouched. -/
theorem events_setEveContext (c : FdContext) (e : Event) (x : EventContext) :
    (c.setEveContext e x).events = c.events := by
  cases e <;> rfl

/-- Replacing only the event mask leaves both `EventContext` slots untouched. -/
theorem getEveContext_events (c : FdContext) (s : EvSet) (e : Event) :
    ({ c with events := s } : FdContext).getEveContext e = c.getEveContext e := by
  cases e <;> rfl

/-- Reading the slot just written by `setEveContext`. -/
theorem getEveContext_setEveContext (c : FdContext) (e : Event) (x : EventContext) :
    (c.setEveContext e x).getEveContext e = x := by
  cases e <;> rfl

/-- C7: on a context where `e` is not armed and its slot is clean, `addEvent`
succeeds and a following `cancelEvent` succeeds, restores the event mask of
the fd to its value before the `addEvent`, fires exactly the waiter that the
`addEvent` registered (the callback slot when a callback was provided, the
fiber slot otherwise), and restores the pending-event count to its prior
value. -/
theorem c7_add_cancel_roundtrip (m : IOManager) (fd : Nat) (e : Event)
    (cbP : Bool) (c : FdContext) (hg : m.fdContexts[fd]? = some c)
    (hmem : c.events.mem e = false) (hclean : c.getEveContext e = .empty)
    (hp : m.pendingEventCnt < U64) :
    (addThenCancel m fd e cbP).map
        (fun r => (maskAt r.1 fd, r.1.pendingEventCnt, r.2)) =
      some (maskAt m fd, m.pendingEventCnt,
        [if cbP then Waiter.cbSlot else Waiter.fiberSlot]) := by
  have hlen : fd < m.fdContexts.length := (List.getElem?_eq_some.mp hg).1
  have hset : ∀ (x : FdContext), (m.fdContexts.set fd x)[fd]? = some x :=
    fun x => List.getElem?_set_self hlen
  have hnle : ¬(m.fdContexts.length ≤ fd) := Nat.not_le.mpr hlen
  have hpend : pendDec (pendInc m.pendingEventCnt) = m.pendingEventCnt := by
    have hp2 : m.pendingEventCnt < 2 ^ 64 := hp
    simp only [pendInc, pendDec, U64]
    omega
  cases cbP <;>
    simp [addThenCancel, addEvent, cancelEvent, triggerEvent, maskAt,
      hg, hmem, hlen, hnle, hset, hclean, hpend, getEveContext_events,
      events_setEveContext, getEveContext_setEveContext, mem_add_self,
      remove_add c.events e hmem, List.length_set, EventContext.empty]

/-- Witness for C7 at a concrete input: arming READ with a callback on the
fresh fd 0 and cancelling it restores the empty mask and the zero pending
count and fires the callback waiter once. -/
theorem c7_add_cancel_roundtrip_witness :
    (addThenCancel ioMgr0 0 Event.read true).map
        (fun r => (maskAt r.1 0, r.1.pendingEventCnt, r.2)) =
      some (maskAt ioMgr0 0, ioMgr0.pendingEventCnt, [Waiter.cbSlot]) := by
  have h := c7_add_cancel_roundtrip ioMgr0 0 Event.read true FdContext.init
    (by decide) (by decide) (by decide) (by decide)
  simpa using h

/-- C10: when the event is not armed on the fd — including when the fd lies
beyond the `FdContext` table — `delEvent` and `cancelEvent` return false,
leave the whole reactor state (mask, waiter slots and pending-event count)
unchanged, and fire no waiter. -/
theorem c10_unarmed_removal_noop (m : IOManager) (fd : Nat) (e : Event) (ok : Bool)
    (h : m.fdContexts.length ≤ fd ∨
      ∃ c, m.fdContexts[fd]? = some c ∧ c.events.mem e = false) :
    delEvent m fd e ok = (false, m, []) ∧
      cancelEvent m fd e ok = some (false, m, []) := by
  rcases h with hlen | ⟨c, hg, hmem⟩
  · constructor
    · unfold delEvent
      rw [if_pos hlen]
    · unfold cancelEvent
      rw [if_pos hlen]
  · have hnle : ¬(m.fdContexts.length ≤ fd) := by
      have := (List.getElem?_eq_some.mp hg).1
      omega
    constructor
    · unfold delEvent
      rw [if_neg hnle, hg]
      simp [hmem]
    · unfold cancelEvent
      rw [if_neg hnle, hg]
      simp [hmem]

/-- Witness for C10 at a concrete input: on the fresh fd 0 no event is armed,
so both removal operations report failure and change nothing. -/
theorem c10_unarmed_removal_noop_witness :
    delEvent ioMgr0 0 Event.write true = (false, ioMgr0, []) ∧
      cancelEvent ioMgr0 0 Event.write true = some (false, ioMgr0, []) :=
  c10_unarmed_removal_noop ioMgr0 0 Event.write true
    (Or.inr ⟨FdContext.init, by decide, by decide⟩)

/-! ## Claims about the hook layer (C5, C8) -/

/-- C5: for a runtime-managed socket (hook enabled, registered, open, not
user-non-blocking) whose per-direction timeout is finite, when the real
syscall reports EAGAIN the hook installs the condition timer, arms the epoll
event for the direction and yields; the installed timer callback, firing with
the weak condition alive and no prior cancellation, records ETIMEDOUT in
`timer_info` and cancels that direction's event; on resumption the timer is
cancelled, and if the timer fired first the call returns -1 with errno
ETIMEDOUT, otherwise the hook loops back and retries the real syscall. -/
theorem c5_io_timeout_protocol (c : FdInfo) (isRecv : Bool)
    (rest : List IORes) (waits : List (Bool × Bool))
    (hsock : c.isSocket = true) (hopen : c.isClosed = false)
    (hnb : c.userNonblock = false) (hfin : c.getTimeout isRecv ≠ U64 - 1) :
    ioTimerCallback true 0 = (ETIMEDOUT, true) ∧
    doIoCall true (some c) isRecv (.err EAGAIN :: rest) ((true, true) :: waits) =
      some (.fail ETIMEDOUT,
        [.syscall, .installTimer (c.getTimeout isRecv), .armEvent, .yieldFiber,
         .timerCancelsEvent, .cancelTimer]) ∧
    doIoCall true (some c) isRecv (.err EAGAIN :: rest) ((true, false) :: waits) =
      (doIoLoop (c.getTimeout isRecv) rest waits).map (fun r =>
        (r.1, [HookAct.syscall, .installTimer (c.getTimeout isRecv), .armEvent,
          .yieldFiber, .cancelTimer] ++ r.2)) := by
  refine ⟨rfl, ?_, ?_⟩ <;>
    simp [doIoCall, doIoLoop, hsock, hopen, hnb, hfin, EINTR, EAGAIN]

/-- Registry record of a managed blocking-style socket with a 50 ms receive
timeout. -/
def fdSock : FdInfo :=
  { isSocket := true, isClosed := false, sysNonblock := true,
    userNonblock := false, recvTimeout := 50, sendTimeout := U64 - 1 }

/-- Witness for C5 at a concrete input: a hooked receive on `fdSock` that hits
EAGAIN once either times out with ETIMEDOUT (timer fired first) or retries and
returns 10 bytes (event fired first). -/
theorem c5_io_timeout_protocol_witness :
    ioTimerCallback true 0 = (ETIMEDOUT, true) ∧
    doIoCall true (some fdSock) true [.err EAGAIN, .ok 10] [(true, true)] =
      some (.fail ETIMEDOUT, [.syscall, .installTimer 50, .armEvent, .yieldFiber,
        .timerCancelsEvent, .cancelTimer]) ∧
    doIoCall true (some fdSock) true [.err EAGAIN, .ok 10] [(true, false)] =
      some (.val 10, [.syscall, .installTimer 50, .armEvent, .yieldFiber,
        .cancelTimer, .syscall]) := by
  have h := c5_io_timeout_protocol fdSock true [.ok 10] [] rfl rfl rfl (by decide)
  exact ⟨h.1, h.2.1.trans (by decide), h.2.2.trans (by decide)⟩

/-- Managed socket whose kernel non-blocking flag is set by the runtime and
whose user most recently asked for non-blocking mode. -/
def sockM : SockState :=
  { kernelNonblock := true,
    info := { isSocket := true, isClosed := false, sysNonblock := true,
              userNonblock := true, recvTimeout := U64 - 1,
              sendTimeout := U64 - 1 } }

/-- C8 counterexample: on the managed socket `sockM` with the kernel
O_NONBLOCK flag set, the hooked `ioctl(FIONBIO, 0)` records the user's
blocking intent in the registry but forwards the value 0 unchanged to the
real `ioctl`, thereby unsetting the kernel non-blocking flag — refuting the
claim that `ioctl(FIONBIO)` records the intent without unsetting the kernel
flag (the hooked `fcntl(F_SETFL)`, by contrast, rewrites the forwarded
word). -/
theorem c8_ioctl_clears_kernel_flag :
    sockM.kernelNonblock = true ∧
    (ioctlFionbio sockM false).info.userNonblock = false ∧
    (ioctlFionbio sockM false).kernelNonblock = false := by
  decide

/-- C8 (amended): for a managed socket, the hooked `fcntl(F_SETFL)` records
the user's non-blocking intent and forces the forwarded O_NONBLOCK bit to the
runtime's system-level flag, so the kernel flag stays set whenever the runtime
set it; `fcntl(F_GETFL)` reports the recorded user view instead of the kernel
flag; the hooked `ioctl(FIONBIO)` records the user's intent but forwards the
user's value unchanged, so the kernel flag becomes exactly the requested
value (and is unset by a request for blocking mode). -/
theorem c8_nonblock_bookkeeping (s : SockState) (arg : Flags) (v : Bool)
    (krest : Nat) (hsock : s.info.isSocket = true)
    (hopen : s.info.isClosed = false) :
    (fcntlSetfl s arg).info.userNonblock = arg.nonblock ∧
    (fcntlSetfl s arg).kernelNonblock = s.info.sysNonblock ∧
    fcntlGetfl s krest = { nonblock := s.info.userNonblock, rest := krest } ∧
    (ioctlFionbio s v).info.userNonblock = v ∧
    (ioctlFionbio s v).kernelNonblock = v := by
  simp [fcntlSetfl, fcntlGetfl, ioctlFionbio, hsock, hopen]

/-- Witness for C8 (amended) at a concrete input: on `sockM`, a user
`fcntl(F_SETFL)` asking for blocking mode is recorded but the kernel flag
stays set; `fcntl(F_GETFL)` reports the recorded user view; an
`ioctl(FIONBIO, 1)` records and forwards non-blocking. -/
theorem c8_nonblock_bookkeeping_witness :
    (fcntlSetfl sockM { nonblock := false, rest := 4 }).info.userNonblock = false ∧
    (fcntlSetfl sockM { nonblock := false, rest := 4 }).kernelNonblock = true ∧
    fcntlGetfl sockM 4 = { nonblock := true, rest := 4 } ∧
    (ioctlFionbio sockM true).info.userNonblock = true ∧
    (ioctlFionbio sockM true).kernelNonblock = true := by
  have h := c8_nonblock_bookkeeping sockM { nonblock := false, rest := 4 } true 4
    rfl rfl
  exact ⟨h.1, h.2.1.trans (by decide), h.2.2.1.trans (by decide),
    h.2.2.2.1, h.2.2.2.2⟩

end Monsoon
